import Mathlib

/-!
# Inspector: routing table, URL validation and response capture

A shallow embedding of the Go packages `pkg/url`, `pkg/handler` and of the
`Run` function of `cmd/root.go`.

Conventions of the embedding.

* Go `string` and `[]byte` values are modelled by `String`; the operations the
  program performs on them (concatenation, prefix removal, comparison) act on
  the sequence of elements in the same way.
* A Go `map[K]V` is modelled by an association list with at most one pair per
  key (`mapGet`, `mapSet`); `range` over a map visits the entries in an
  unspecified order, which is modelled by passing the entries as a list in
  the order in which they are visited.
* Output written to the standard output stream by `fmt.Println` /
  `fmt.Printf` inside `url.Parse` and inside the table loop of `Run` is
  diagnostic only and is not part of the model; the output of the
  middleware `LogAndRewrite` is.
* Library code (`net/url`, `net/http`) is not part of the repository: the
  library URL parser and the real response sink are parameters of the model.
-/

namespace Inspector

/-! ## Go maps -/

/-- Lookup `m[k]` with the presence flag: `none` when the key is absent. -/
def mapGet {K V : Type} [DecidableEq K] : List (K × V) → K → Option V
  | [], _ => none
  | (k', v) :: m, k => if k' = k then some v else mapGet m k

/-- Assignment `m[k] = v`: replaces the value of an existing key, adds the key otherwise. -/
def mapSet {K V : Type} [DecidableEq K] : List (K × V) → K → V → List (K × V)
  | [], k, v => [(k, v)]
  | (k', v') :: m, k, v => if k' = k then (k', v) :: m else (k', v') :: mapSet m k v

/-- The keys of a map. -/
def mapKeys {K V : Type} (m : List (K × V)) : List K := m.map Prod.fst

/-! ## Package `pkg/url` -/

namespace url

/-- The struct `url.URL` (the Endpoint of the specification). -/
structure URL where
  Scheme : String
  Hostname : String
  Port : String
  Path : String
  deriving DecidableEq, Repr

/-- The zero value `URL{}`. -/
def URL.zero : URL := ⟨"", "", "", ""⟩

/-- What `url.Parse` reads from a value `u` returned by the library parser
`net/url.Parse`: the field `u.Scheme`, the results of the methods `u.Hostname()`,
`u.Port()` and `u.EscapedPath()`, whether `u.User != nil`, and the fields
`u.RawQuery` and `u.Fragment`. -/
structure StdURL where
  Scheme : String
  Hostname : String
  Port : String
  EscapedPath : String
  User : Bool
  RawQuery : String
  Fragment : String
  deriving DecidableEq, Repr

/-- The errors `url.Parse` returns. -/
inductive Error where
  /-- the error returned by the library parser, passed on unchanged -/
  | std (msg : String)
  /-- `fmt.Errorf("bad scheme: %s", u.Scheme)` -/
  | badScheme (scheme : String)
  /-- `fmt.Errorf("empty hostname, aborting")` -/
  | emptyHostname
  deriving DecidableEq, Repr

/-- The library parser `net/url.Parse`, a parameter of the model. -/
abbrev StdParser := String → Except String StdURL

/-- The function `url.Parse`: the pair `(URL, error)` it returns, `none` standing for a
`nil` error. -/
def Parse (stdParse : StdParser) (s : String) : URL × Option Error :=
  match stdParse s with
  | .error err => (URL.zero, some (.std err))
  | .ok u =>
    let parsedURL := URL.zero
    if u.Scheme ≠ "http" ∧ u.Scheme ≠ "https" then
      (URL.zero, some (.badScheme u.Scheme))
    else
      let parsedURL := { parsedURL with Scheme := u.Scheme }
      if u.Hostname = "" then
        (URL.zero, some .emptyHostname)
      else
        let parsedURL := { parsedURL with Hostname := u.Hostname }
        let parsedURL :=
          if parsedURL.Scheme = "http" then { parsedURL with Port := "80" }
          else if parsedURL.Scheme = "https" then { parsedURL with Port := "443" }
          else parsedURL
        let parsedURL :=
          if u.Port ≠ "" then { parsedURL with Port := u.Port } else parsedURL
        let parsedURL := { parsedURL with Path := u.EscapedPath }
        (parsedURL, none)

end url

/-! ## Package `pkg/handler` -/

namespace handler

/-- Go strings as a type name usable next to the method `String` below. -/
abbrev GoString := String

/-- The library function `strings.TrimPrefix`: `s` without the leading `pre`, and `s`
unchanged when `s` does not start with `pre`. -/
def TrimPrefix (s pre : String) : String :=
  if pre.data <+: s.data then ⟨s.data.drop pre.data.length⟩ else s

/-- The value `http.Header` of a response: header names with their values, in the order
in which `range` visits them. -/
abbrev Header := List (String × List String)

/-- An implementation of the interface `http.ResponseWriter` on states `σ`: the real
response sink is a parameter of the model. `Write` returns the new state and the pair
`(int, error)`. -/
structure ResponseWriter (σ : Type) where
  Header : σ → Header
  Write : σ → String → σ × (Int × Option String)
  WriteHeader : σ → Int → σ

/-- The struct `ResponseWriterWrapper`. Its three fields are pointers in the source, so
that the methods, although they have value receivers, update the sink, the buffer and the
status code in place; here the methods return the updated struct. -/
structure ResponseWriterWrapper (σ : Type) where
  w : σ
  body : String
  statusCode : Int

/-- The function `NewResponseWriterWrapper`: empty buffer, status code 200. -/
def NewResponseWriterWrapper {σ : Type} (w : σ) : ResponseWriterWrapper σ :=
  { w := w, body := "", statusCode := 200 }

/-- The method `Write`: append to the buffer, then return what the sink's `Write` returns. -/
def ResponseWriterWrapper.Write {σ : Type} (W : ResponseWriter σ)
    (rww : ResponseWriterWrapper σ) (buf : String) :
    ResponseWriterWrapper σ × (Int × Option String) :=
  let rww := { rww with body := rww.body ++ buf }
  let r := W.Write rww.w buf
  ({ rww with w := r.1 }, r.2)

/-- The method `Header`: the header of the sink. -/
def ResponseWriterWrapper.Header {σ : Type} (W : ResponseWriter σ)
    (rww : ResponseWriterWrapper σ) : Header :=
  W.Header rww.w

/-- The method `WriteHeader`: record the status code, then forward it to the sink. -/
def ResponseWriterWrapper.WriteHeader {σ : Type} (W : ResponseWriter σ)
    (rww : ResponseWriterWrapper σ) (statusCode : Int) : ResponseWriterWrapper σ :=
  let rww := { rww with statusCode := statusCode }
  { rww with w := W.WriteHeader rww.w statusCode }

/-- The verb `%v` of `fmt` on a `[]string`. -/
def fmtStrings (v : List String) : String := "[" ++ " ".intercalate v ++ "]"

/-- The method `String`. -/
def ResponseWriterWrapper.String {σ : Type} (W : ResponseWriter σ)
    (rww : ResponseWriterWrapper σ) : GoString :=
  let buf := ""
  let buf := buf ++ "Response:"
  let buf := buf ++ "Headers:"
  let buf := (W.Header rww.w).foldl (fun buf kv => buf ++ (kv.1 ++ ": " ++ fmtStrings kv.2)) buf
  let buf := buf ++ (" Status Code: " ++ toString rww.statusCode)
  let buf := buf ++ "Body"
  let buf := buf ++ rww.body
  buf

/-- The wrapper as an implementation of `http.ResponseWriter`. -/
def wrapperWriter {σ : Type} (W : ResponseWriter σ) : ResponseWriter (ResponseWriterWrapper σ) where
  Header := ResponseWriterWrapper.Header W
  Write := ResponseWriterWrapper.Write W
  WriteHeader := ResponseWriterWrapper.WriteHeader W

/-- The part of `http.Request.URL` the middleware touches, and the query besides. -/
structure RequestURL where
  Path : String
  RawPath : String
  RawQuery : String
  deriving DecidableEq, Repr

/-- A request `*http.Request`. -/
structure Request where
  Method : String
  Host : String
  URL : RequestURL
  Body : String
  deriving DecidableEq, Repr

/-- A handler `http.HandlerFunc`: given a response writer (an implementation of the
interface and its state) and a request, the final state of the writer and the text the
handler wrote to the standard output. -/
abbrev HandlerFunc := (σ : Type) → ResponseWriter σ → σ → Request → σ × String

/-- The function `LogAndRewrite`. The request dump `httputil.DumpRequest(r, true)` is the
parameter `dump`. The deferred function prints `w2.String()` after `h` has returned. -/
def LogAndRewrite (dump : Request → String) (entry : url.URL) (h : HandlerFunc) : HandlerFunc :=
  fun σ W w r =>
    let out := dump r
    let r2 := r
    let r2 := { r2 with URL := { r2.URL with Path := TrimPrefix r2.URL.Path entry.Path } }
    let r2 := { r2 with URL := { r2.URL with RawPath := TrimPrefix r2.URL.RawPath entry.Path } }
    let w2 := NewResponseWriterWrapper w
    let res := h (ResponseWriterWrapper σ) (wrapperWriter W) w2 r2
    (res.1.w, out ++ res.2 ++ res.1.String W)

/-! ### Sequences of calls, and two sinks -/

/-- A call of `Write` or of `WriteHeader` on a response writer. -/
inductive Call where
  | Write (buf : String)
  | WriteHeader (statusCode : Int)
  deriving DecidableEq, Repr

/-- One call on the wrapper. -/
def ResponseWriterWrapper.call {σ : Type} (W : ResponseWriter σ)
    (rww : ResponseWriterWrapper σ) : Call → ResponseWriterWrapper σ
  | .Write buf => (rww.Write W buf).1
  | .WriteHeader statusCode => rww.WriteHeader W statusCode

/-- A sequence of calls on the wrapper, in order. -/
def ResponseWriterWrapper.calls {σ : Type} (W : ResponseWriter σ)
    (rww : ResponseWriterWrapper σ) (cs : List Call) : ResponseWriterWrapper σ :=
  cs.foldl (ResponseWriterWrapper.call W) rww

/-- A sink that behaves as `W` and keeps the list of the calls it has received. -/
def recording {σ : Type} (W : ResponseWriter σ) : ResponseWriter (σ × List Call) where
  Header s := W.Header s.1
  Write s buf := (((W.Write s.1 buf).1, s.2 ++ [.Write buf]), (W.Write s.1 buf).2)
  WriteHeader s statusCode := (W.WriteHeader s.1 statusCode, s.2 ++ [.WriteHeader statusCode])

/-- The bytes of the `Write` calls of a sequence, concatenated. -/
def writtenBytes : List Call → String
  | [] => ""
  | .Write buf :: cs => buf ++ writtenBytes cs
  | .WriteHeader _ :: cs => writtenBytes cs

/-- The codes of the `WriteHeader` calls of a sequence, in order. -/
def headerCodes : List Call → List Int
  | [] => []
  | .Write _ :: cs => headerCodes cs
  | .WriteHeader statusCode :: cs => statusCode :: headerCodes cs

/-- One call made on a sink directly. -/
def ResponseWriter.call {σ : Type} (W : ResponseWriter σ) (s : σ) : Call → σ
  | .Write buf => (W.Write s buf).1
  | .WriteHeader statusCode => W.WriteHeader s statusCode

/-- A sequence of calls made on a sink directly, in order. -/
def ResponseWriter.calls {σ : Type} (W : ResponseWriter σ) (s : σ) (cs : List Call) : σ :=
  cs.foldl (ResponseWriter.call W) s

/-- The state of a standard HTTP response sink. -/
structure StdSink where
  header : Header
  wroteHeader : Bool
  status : Int
  body : String
  deriving DecidableEq, Repr

/-- Modelled from the spec: the real sink `http.ResponseWriter` of the HTTP server, which is
library code. Its status is fixed by the first `WriteHeader` or, with code 200, by the first
`Write` ("the status defaults to 200 on the real sink (standard HTTP behavior)"); a later
`WriteHeader` does not change it. -/
def stdSink : ResponseWriter StdSink where
  Header s := s.header
  WriteHeader s statusCode :=
    if s.wroteHeader then s else { s with wroteHeader := true, status := statusCode }
  Write s buf :=
    let s := if s.wroteHeader then s else { s with wroteHeader := true, status := 200 }
    ({ s with body := s.body ++ buf }, (buf.utf8ByteSize, none))

/-- A standard sink on which nothing has been written. -/
def StdSink.fresh (header : Header) : StdSink :=
  { header := header, wroteHeader := false, status := 0, body := "" }

/-- The status a standard sink has committed, if any. -/
def StdSink.committed (s : StdSink) : Option Int :=
  if s.wroteHeader then some s.status else none

/-- A handler that writes the path of the request it receives to its response writer. -/
def echoPath : HandlerFunc := fun _ W w r => ((W.Write w r.URL.Path).1, "")

/-- A handler that writes the raw path of the request it receives to its response writer. -/
def echoRawPath : HandlerFunc := fun _ W w r => ((W.Write w r.URL.RawPath).1, "")

end handler

/-! ## `cmd/root.go`: the function `Run` -/

namespace cmd

open url

/-- The two maps the first loop of `Run` fills: `portToScheme` and `portToHostPathMap`. -/
structure Tables where
  portToScheme : List (String × String)
  portToHostPathMap : List (String × List (URL × URL))
  deriving DecidableEq, Repr

/-- The two maps as `make` creates them. -/
def Tables.empty : Tables := ⟨[], []⟩

/-- The body of the loop `for entry, backend := range proxy` (lines 55 to 76): `none` is
the `return` of line 70, `some t` the tables with which the loop goes on (after `continue`
or at the end of the body). -/
def runLoopBody (stdParse : StdParser) (t : Tables) (entry backend : String) : Option Tables :=
  match Parse stdParse entry with
  | (_, some _) => some t
  | (e, none) =>
    match Parse stdParse backend with
    | (_, some _) => some t
    | (b, none) =>
      let portToScheme :=
        if (mapGet t.portToScheme e.Port).isNone then mapSet t.portToScheme e.Port e.Scheme
        else t.portToScheme
      if (mapGet portToScheme e.Port).getD "" ≠ e.Scheme then
        none
      else
        let portToHostPathMap :=
          if (mapGet t.portToHostPathMap e.Port).isNone then mapSet t.portToHostPathMap e.Port []
          else t.portToHostPathMap
        let group := (mapGet portToHostPathMap e.Port).getD []
        let portToHostPathMap := mapSet portToHostPathMap e.Port (mapSet group e b)
        some { portToScheme := portToScheme, portToHostPathMap := portToHostPathMap }

/-- The loop `for entry, backend := range proxy`, the entries of `proxy` given in the order
in which they are visited. -/
def runLoop (stdParse : StdParser) : List (String × String) → Tables → Option Tables
  | [], t => some t
  | (entry, backend) :: rest, t =>
    match runLoopBody stdParse t entry backend with
    | none => none
    | some t' => runLoop stdParse rest t'

/-- A route registered on the `ServeMux` of a server: the pattern `e.Hostname+e.Path`, the
frontend `e` given to `LogAndRewrite`, and the string from which `backendUrl` is parsed. -/
structure Route where
  pattern : String
  entry : URL
  backendUrl : String
  deriving DecidableEq, Repr

/-- A server `http.Server` of the map `srvs`: its address and the routes of its handler. -/
structure Server where
  Addr : String
  Handler : List Route
  deriving DecidableEq, Repr

/-- The server built and started for one port (lines 80 to 88). `Addr` is assigned in the
inner loop, hence only when the group of the port has a route. -/
def newServer (t : Tables) (port : String) : Server :=
  let group := (mapGet t.portToHostPathMap port).getD []
  { Addr := if group.isEmpty then "" else ":" ++ port
    Handler := group.map fun eb =>
      { pattern := eb.1.Hostname ++ eb.1.Path
        entry := eb.1
        backendUrl := eb.2.Scheme ++ "://" ++ eb.2.Hostname ++ ":" ++ eb.2.Port ++ eb.2.Path } }

/-- The function `Run` up to the start of the servers (lines 52 to 89), on the value
`proxy` of the flag: `none` when `Run` returns at line 70, before the map `srvs` is made;
otherwise the map `srvs`, one started server per key of `portToScheme`. A panic of
`HandleFunc` on a pattern the `ServeMux` rejects, the listeners themselves and the shutdown
after the interrupt signal are outside the model. -/
def Run (stdParse : StdParser) (proxy : List (String × String)) : Option (List (String × Server)) :=
  match runLoop stdParse proxy Tables.empty with
  | none => none
  | some t => some (t.portToScheme.map fun ps => (ps.1, newServer t ps.1))

/-- An entry of the mapping is valid when `url.Parse` accepts its frontend and its backend. -/
def validEntry (stdParse : StdParser) (fb : String × String) : Bool :=
  (Parse stdParse fb.1).2.isNone && (Parse stdParse fb.2).2.isNone

/-- The frontend `URL` of an entry of the mapping, as `url.Parse` returns it. -/
def frontendOf (stdParse : StdParser) (fb : String × String) : URL := (Parse stdParse fb.1).1

/-- The backend `URL` of an entry of the mapping, as `url.Parse` returns it. -/
def backendOf (stdParse : StdParser) (fb : String × String) : URL := (Parse stdParse fb.2).1

/-- The effect of the loop body for a frontend `e` and a backend `b` that both parsed, read
off the scheme already recorded for the port of `e` (`runLoopBody_valid` relates it to
`runLoopBody`): the scheme of `e` is recorded if the port has none, the loop is left if the
port has another one, and `b` is stored under `e` in the group of the port. -/
def recordRoute (t : Tables) (e b : URL) : Option Tables :=
  match mapGet t.portToScheme e.Port with
  | none => some
      { portToScheme := mapSet t.portToScheme e.Port e.Scheme
        portToHostPathMap := mapSet t.portToHostPathMap e.Port
          (mapSet ((mapGet t.portToHostPathMap e.Port).getD []) e b) }
  | some s =>
    if s = e.Scheme then some
      { portToScheme := t.portToScheme
        portToHostPathMap := mapSet t.portToHostPathMap e.Port
          (mapSet ((mapGet t.portToHostPathMap e.Port).getD []) e b) }
    else none

/-- The backend stored for the frontend `e` in the group of the port `p`, if any. -/
def Tables.route (t : Tables) (p : String) (e : URL) : Option URL :=
  (mapGet t.portToHostPathMap p).bind fun group => mapGet group e

/-- The Port Group invariant on the two tables: no port occurs twice among the keys of
either map, and every frontend stored in the group of a port has that port and the scheme
recorded for that port. -/
def Tables.WF (t : Tables) : Prop :=
  (mapKeys t.portToScheme).Nodup ∧ (mapKeys t.portToHostPathMap).Nodup ∧
  ∀ pg ∈ t.portToHostPathMap, ∀ eb ∈ pg.2,
    eb.1.Port = pg.1 ∧ mapGet t.portToScheme pg.1 = some eb.1.Scheme

/-- A stand-in for the library parser `net/url.Parse` in the examples: on each address
listed, of the form `scheme://host[:port]/[path]`, the scheme, host name, port and escaped
path the library parser returns for it (no user, query or fragment), and an error on every
other string. -/
def sampleParse : StdParser := fun s =>
  if s = "http://a/" then .ok ⟨"http", "a", "", "/", false, "", ""⟩
  else if s = "http://a:80/" then .ok ⟨"http", "a", "80", "/", false, "", ""⟩
  else if s = "http://a:8080/" then .ok ⟨"http", "a", "8080", "/", false, "", ""⟩
  else if s = "https://b:8080/" then .ok ⟨"https", "b", "8080", "/", false, "", ""⟩
  else if s = "http://b1/" then .ok ⟨"http", "b1", "", "/", false, "", ""⟩
  else if s = "http://b2/" then .ok ⟨"http", "b2", "", "/", false, "", ""⟩
  else if s = "https://c/x" then .ok ⟨"https", "c", "", "/x", false, "", ""⟩
  else if s = "ftp://d/" then .ok ⟨"ftp", "d", "", "/", false, "", ""⟩
  else if s = "http:///p" then .ok ⟨"http", "", "", "/p", false, "", ""⟩
  else .error "parse error"

end cmd

end Inspector

namespace Inspector

open url handler cmd

/-! ## Lemmas on maps -/

theorem mapGet_mapSet {K V : Type} [DecidableEq K] (m : List (K × V)) (k k' : K) (v : V) :
    mapGet (mapSet m k v) k' = if k = k' then some v else mapGet m k' := by
  induction m with
  | nil => simp [mapSet, mapGet]
  | cons x m ih =>
    obtain ⟨a, b⟩ := x
    by_cases h : a = k
    · subst h
      by_cases h' : a = k' <;> simp [mapSet, mapGet, h']
    · by_cases h' : a = k'
      · subst h'
        simp [mapSet, mapGet, h, Ne.symm h]
      · simp [mapSet, mapGet, h, h', ih]

theorem mapGet_mapSet_self {K V : Type} [DecidableEq K] (m : List (K × V)) (k : K) (v : V) :
    mapGet (mapSet m k v) k = some v := by
  simp [mapGet_mapSet]

theorem mapSet_mapSet {K V : Type} [DecidableEq K] (m : List (K × V)) (k : K) (v v' : V) :
    mapSet (mapSet m k v) k v' = mapSet m k v' := by
  induction m with
  | nil => simp [mapSet]
  | cons x m ih =>
    obtain ⟨a, b⟩ := x
    by_cases h : a = k <;> simp [mapSet, h, ih]

theorem mem_mapSet {K V : Type} [DecidableEq K] (m : List (K × V)) (k : K) (v : V)
    (x : K × V) (hx : x ∈ mapSet m k v) : x = (k, v) ∨ x ∈ m := by
  induction m with
  | nil => simp [mapSet] at hx; exact Or.inl hx
  | cons y m ih =>
    obtain ⟨a, b⟩ := y
    by_cases h : a = k
    · subst h
      simp only [mapSet, if_true, List.mem_cons] at hx
      rcases hx with hx | hx
      · exact Or.inl hx
      · exact Or.inr (List.mem_cons_of_mem _ hx)
    · simp only [mapSet, h, if_false, List.mem_cons] at hx
      rcases hx with hx | hx
      · right; subst hx; exact List.mem_cons_self _ _
      · rcases ih hx with h1 | h1
        · exact Or.inl h1
        · exact Or.inr (List.mem_cons_of_mem _ h1)

theorem mapKeys_mapSet {K V : Type} [DecidableEq K] (m : List (K × V)) (k : K) (v : V) :
    mapKeys (mapSet m k v) = if k ∈ mapKeys m then mapKeys m else mapKeys m ++ [k] := by
  induction m with
  | nil => simp [mapSet, mapKeys]
  | cons y m ih =>
    obtain ⟨a, b⟩ := y
    by_cases h : a = k
    · subst h
      simp [mapSet, mapKeys]
    · have h' : ¬ k = a := fun e => h e.symm
      simp only [mapKeys] at ih
      by_cases hk : k ∈ List.map Prod.fst m
      · simp [mapSet, mapKeys, h, h', hk, ih]
      · simp [mapSet, mapKeys, h, h', hk, ih]

theorem mem_mapKeys_mapSet {K V : Type} [DecidableEq K] (m : List (K × V)) (k k' : K) (v : V) :
    k' ∈ mapKeys (mapSet m k v) ↔ k' = k ∨ k' ∈ mapKeys m := by
  rw [mapKeys_mapSet]
  by_cases hk : k ∈ mapKeys m
  · simp only [hk, if_true]
    constructor
    · exact Or.inr
    · rintro (h | h)
      · exact h ▸ hk
      · exact h
  · simp only [hk, if_false, List.mem_append, List.mem_singleton]
    tauto

theorem nodup_mapKeys_mapSet {K V : Type} [DecidableEq K] (m : List (K × V)) (k : K) (v : V)
    (h : (mapKeys m).Nodup) : (mapKeys (mapSet m k v)).Nodup := by
  rw [mapKeys_mapSet]
  by_cases hk : k ∈ mapKeys m
  · simpa [hk] using h
  · simp only [hk, if_false]
    exact List.Nodup.append h (List.nodup_singleton k) (by simpa using hk)

theorem mapGet_eq_none_iff {K V : Type} [DecidableEq K] (m : List (K × V)) (k : K) :
    mapGet m k = none ↔ k ∉ mapKeys m := by
  induction m with
  | nil => simp [mapGet, mapKeys]
  | cons y m ih =>
    obtain ⟨a, b⟩ := y
    simp only [mapKeys] at ih
    by_cases h : a = k
    · simp [mapGet, mapKeys, h]
    · have h' : ¬ k = a := fun e => h e.symm
      simp [mapGet, mapKeys, h, h', ih]

theorem mem_of_mapGet {K V : Type} [DecidableEq K] (m : List (K × V)) (k : K) (v : V)
    (h : mapGet m k = some v) : (k, v) ∈ m := by
  induction m with
  | nil => simp [mapGet] at h
  | cons y m ih =>
    obtain ⟨a, b⟩ := y
    by_cases hk : a = k
    · subst hk
      simp only [mapGet, if_true, Option.some.injEq] at h
      subst h
      exact List.mem_cons_self _ _
    · simp only [mapGet, hk, if_false] at h
      exact List.mem_cons_of_mem _ (ih h)

theorem mapGet_of_mem {K V : Type} [DecidableEq K] (m : List (K × V)) (k : K) (v : V)
    (hn : (mapKeys m).Nodup) (h : (k, v) ∈ m) : mapGet m k = some v := by
  induction m with
  | nil => simp at h
  | cons y m ih =>
    obtain ⟨a, b⟩ := y
    simp only [mapKeys, List.map_cons, List.nodup_cons] at hn
    simp only [List.mem_cons, Prod.mk.injEq] at h
    rcases h with ⟨h1, h2⟩ | h
    · subst h1; subst h2
      simp [mapGet]
    · have hne : a ≠ k := by
        rintro rfl
        exact hn.1 (List.mem_map_of_mem Prod.fst h)
      simp only [mapGet, hne, if_false]
      exact ih hn.2 h

/-! ## Lemmas on `url.Parse` -/

theorem Parse_ok_scheme (stdParse : StdParser) (s : String) (e : URL)
    (h : Parse stdParse s = (e, none)) : e.Scheme = "http" ∨ e.Scheme = "https" := by
  unfold Parse at h
  split at h
  · simp at h
  · rename_i u hu
    by_cases hs : u.Scheme ≠ "http" ∧ u.Scheme ≠ "https"
    · simp [hs] at h
    · by_cases hh : u.Hostname = ""
      · simp [hs, hh] at h
      · simp only [hs, hh, if_false] at h
        have h1 := congrArg (fun p => p.1.Scheme) h
        simp only at h1
        have : u.Scheme = "http" ∨ u.Scheme = "https" := by tauto
        rcases this with hc | hc
        · left; rw [← h1]; split_ifs <;> simp_all
        · right; rw [← h1]; split_ifs <;> simp_all

/-! ## The URL validator: claims C1 and C2 -/

/-- C1: when the library parser accepts the input with result `u`, `url.Parse` returns the
zero `URL` (all four fields empty) with the bad-scheme error if `u.Scheme` is neither `http`
nor `https`, the zero `URL` with the empty-hostname error if the scheme is one of the two and
`u.Hostname()` is empty, and otherwise no error and a `URL` with that scheme and that
non-empty hostname. -/
theorem Parse_error_or_endpoint (stdParse : StdParser) (s : String) (u : StdURL)
    (hu : stdParse s = .ok u) :
    ((u.Scheme ≠ "http" ∧ u.Scheme ≠ "https") →
      Parse stdParse s = (⟨"", "", "", ""⟩, some (.badScheme u.Scheme))) ∧
    ((u.Scheme = "http" ∨ u.Scheme = "https") → u.Hostname = "" →
      Parse stdParse s = (⟨"", "", "", ""⟩, some .emptyHostname)) ∧
    ((u.Scheme = "http" ∨ u.Scheme = "https") → u.Hostname ≠ "" →
      (Parse stdParse s).2 = none ∧ (Parse stdParse s).1.Scheme = u.Scheme ∧
      (Parse stdParse s).1.Hostname = u.Hostname ∧ (Parse stdParse s).1.Hostname ≠ "") := by
  refine ⟨?_, ?_, ?_⟩
  · intro hs
    simp [Parse, hu, hs, URL.zero]
  · intro hs hh
    have hs' : ¬ (u.Scheme ≠ "http" ∧ u.Scheme ≠ "https") := by tauto
    simp only [Parse, hu, hs', hh, if_true, if_false, URL.zero]
  · intro hs hh
    have hs' : ¬ (u.Scheme ≠ "http" ∧ u.Scheme ≠ "https") := by tauto
    simp only [Parse, hu, hs', hh, if_false]
    refine ⟨trivial, ?_, ?_, ?_⟩
    · split_ifs <;> rfl
    · split_ifs <;> rfl
    · split_ifs <;> exact hh

/-- Witness of C1: the three cases at `ftp://d/`, `http:///p` and `https://c/x`. -/
theorem Parse_error_or_endpoint_witness :
    Parse sampleParse "ftp://d/" = (⟨"", "", "", ""⟩, some (.badScheme "ftp")) ∧
    Parse sampleParse "http:///p" = (⟨"", "", "", ""⟩, some .emptyHostname) ∧
    ((Parse sampleParse "https://c/x").2 = none ∧
      (Parse sampleParse "https://c/x").1.Scheme = "https" ∧
      (Parse sampleParse "https://c/x").1.Hostname = "c" ∧
      (Parse sampleParse "https://c/x").1.Hostname ≠ "") :=
  ⟨(Parse_error_or_endpoint sampleParse "ftp://d/"
      ⟨"ftp", "d", "", "/", false, "", ""⟩ rfl).1 (by decide),
   (Parse_error_or_endpoint sampleParse "http:///p"
      ⟨"http", "", "", "/p", false, "", ""⟩ rfl).2.1 (by decide) (by decide),
   (Parse_error_or_endpoint sampleParse "https://c/x"
      ⟨"https", "c", "", "/x", false, "", ""⟩ rfl).2.2 (by decide) (by decide)⟩

/-- C2: when the library parser accepts the input with scheme `http` or `https` and a
non-empty hostname, `url.Parse` returns no error and the port of the returned `URL` is the
explicit port if there is one, and otherwise `80` for `http` and `443` for `https`; the port
is never empty. -/
theorem Parse_port (stdParse : StdParser) (s : String) (u : StdURL)
    (hu : stdParse s = .ok u) (hs : u.Scheme = "http" ∨ u.Scheme = "https")
    (hh : u.Hostname ≠ "") :
    (Parse stdParse s).2 = none ∧
    (u.Port ≠ "" → (Parse stdParse s).1.Port = u.Port) ∧
    (u.Port = "" → u.Scheme = "http" → (Parse stdParse s).1.Port = "80") ∧
    (u.Port = "" → u.Scheme = "https" → (Parse stdParse s).1.Port = "443") ∧
    (Parse stdParse s).1.Port ≠ "" := by
  have hs' : ¬ (u.Scheme ≠ "http" ∧ u.Scheme ≠ "https") := by tauto
  simp only [Parse, hu, hs', hh, if_false]
  refine ⟨trivial, ?_, ?_, ?_, ?_⟩
  · intro hp
    simp [hp]
  · intro hp h1
    simp [hp, h1]
  · intro hp h1
    simp [hp, h1]
  · by_cases hp : u.Port = ""
    · rcases hs with h1 | h1 <;> simp [hp, h1]
    · simp [hp]

/-- Witness of C2: the default port of `http://a/` and the explicit port of
`https://b:8080/`. -/
theorem Parse_port_witness :
    (Parse sampleParse "http://a/").1.Port = "80" ∧
    (Parse sampleParse "https://b:8080/").1.Port = "8080" :=
  ⟨(Parse_port sampleParse "http://a/" ⟨"http", "a", "", "/", false, "", ""⟩
      rfl (by decide) (by decide)).2.2.1 (by decide) (by decide),
   (Parse_port sampleParse "https://b:8080/" ⟨"https", "b", "8080", "/", false, "", ""⟩
      rfl (by decide) (by decide)).2.1 (by decide)⟩

/-! ## The response capture facade: claims C7, C8 and C9 -/

theorem calls_cons {σ : Type} (W : ResponseWriter σ) (rww : ResponseWriterWrapper σ)
    (c : Call) (cs : List Call) :
    rww.calls W (c :: cs) = (rww.call W c).calls W cs := rfl

theorem getLast?_getD_cons (c : Int) (l : List Int) (d : Int) :
    (c :: l).getLast?.getD d = l.getLast?.getD c := by
  cases l with
  | nil => rfl
  | cons a l => simp [List.getLast?_cons_cons, List.getLast?_eq_getLast]

/-- What a sequence of calls does to a wrapper placed on a recording sink. -/
theorem calls_recording {σ : Type} (W : ResponseWriter σ) (cs : List Call)
    (rww : ResponseWriterWrapper (σ × List Call)) :
    (rww.calls (recording W) cs).w.2 = rww.w.2 ++ cs ∧
    (rww.calls (recording W) cs).w.1 = W.calls rww.w.1 cs ∧
    (rww.calls (recording W) cs).body = rww.body ++ writtenBytes cs ∧
    (rww.calls (recording W) cs).statusCode = (headerCodes cs).getLast?.getD rww.statusCode := by
  induction cs generalizing rww with
  | nil => simp [ResponseWriterWrapper.calls, ResponseWriter.calls, writtenBytes, headerCodes]
  | cons c cs ih =>
    rw [calls_cons]
    obtain ⟨h1, h2, h3, h4⟩ := ih (rww.call (recording W) c)
    rw [h1, h2, h3, h4]
    cases c with
    | Write buf =>
      simp [ResponseWriterWrapper.call, ResponseWriterWrapper.Write, recording, writtenBytes,
        headerCodes, ResponseWriter.calls, ResponseWriter.call, String.append_assoc]
    | WriteHeader code =>
      simp [ResponseWriterWrapper.call, ResponseWriterWrapper.WriteHeader, recording,
        writtenBytes, headerCodes, ResponseWriter.calls, ResponseWriter.call,
        getLast?_getD_cons]

/-- C7: for every real sink `W` and every sequence of calls on a fresh wrapper, the sink
receives exactly the calls made on the wrapper, in order, and reaches the state it reaches
when they are made on it directly; the bytes of the `Write` calls it received, concatenated,
are the contents of the capture buffer; and every `Write` on the wrapper returns exactly what
the `Write` of the sink returns on the same bytes. -/
theorem Write_mirrors_sink {σ : Type} (W : ResponseWriter σ) (w : σ) (cs : List Call) :
    ((NewResponseWriterWrapper (w, ([] : List Call))).calls (recording W) cs).w.2 = cs ∧
    ((NewResponseWriterWrapper (w, ([] : List Call))).calls (recording W) cs).w.1
      = W.calls w cs ∧
    writtenBytes ((NewResponseWriterWrapper (w, ([] : List Call))).calls (recording W) cs).w.2
      = ((NewResponseWriterWrapper (w, ([] : List Call))).calls (recording W) cs).body ∧
    ∀ (rww : ResponseWriterWrapper σ) (buf : String),
      (rww.Write W buf).2 = (W.Write rww.w buf).2 ∧
      (rww.Write W buf).1.w = (W.Write rww.w buf).1 ∧
      (rww.Write W buf).1.body = rww.body ++ buf := by
  obtain ⟨h1, h2, h3, _⟩ := calls_recording W cs (NewResponseWriterWrapper (w, []))
  refine ⟨?_, ?_, ?_, ?_⟩
  · simpa [NewResponseWriterWrapper] using h1
  · simpa [NewResponseWriterWrapper] using h2
  · rw [h1, h3]
    simp [NewResponseWriterWrapper]
  · intro rww buf
    exact ⟨rfl, rfl, rfl⟩

/-- C8: for every real sink and every sequence of `Write` and `WriteHeader` calls on a fresh
wrapper, the recorded status code is 200 if `WriteHeader` was not called and otherwise the
code of the last `WriteHeader` call; the codes the sink received through `WriteHeader` are
those of the calls made on the wrapper, each once and in call order; and a `Write` leaves
the recorded status code as it is. -/
theorem statusCode_last_WriteHeader {σ : Type} (W : ResponseWriter σ) (w : σ)
    (cs : List Call) :
    ((NewResponseWriterWrapper (w, ([] : List Call))).calls (recording W) cs).statusCode
      = (headerCodes cs).getLast?.getD 200 ∧
    headerCodes ((NewResponseWriterWrapper (w, ([] : List Call))).calls (recording W) cs).w.2
      = headerCodes cs ∧
    (∀ (rww : ResponseWriterWrapper σ) (buf : String),
      (rww.Write W buf).1.statusCode = rww.statusCode) ∧
    ∀ (rww : ResponseWriterWrapper σ) (statusCode : Int),
      (rww.WriteHeader W statusCode).statusCode = statusCode ∧
      (rww.WriteHeader W statusCode).w = W.WriteHeader rww.w statusCode ∧
      (rww.WriteHeader W statusCode).body = rww.body := by
  obtain ⟨h1, _, _, h4⟩ := calls_recording W cs (NewResponseWriterWrapper (w, []))
  refine ⟨?_, ?_, ?_, ?_⟩
  · simpa [NewResponseWriterWrapper] using h4
  · rw [h1]
    simp [NewResponseWriterWrapper]
  · intro rww buf
    rfl
  · intro rww statusCode
    exact ⟨rfl, rfl, rfl⟩

/-- What a sequence of calls does to a wrapper placed on a standard sink. -/
theorem calls_stdSink (cs : List Call) (rww : ResponseWriterWrapper StdSink) :
    (rww.calls stdSink cs).w.header = rww.w.header ∧
    (rww.w.wroteHeader = true →
      (rww.calls stdSink cs).w.wroteHeader = true ∧
      (rww.calls stdSink cs).w.status = rww.w.status) ∧
    (rww.calls stdSink cs).body = rww.body ++ writtenBytes cs ∧
    (rww.calls stdSink cs).statusCode = (headerCodes cs).getLast?.getD rww.statusCode := by
  induction cs generalizing rww with
  | nil => simp [ResponseWriterWrapper.calls, writtenBytes, headerCodes]
  | cons c cs ih =>
    rw [calls_cons]
    obtain ⟨h1, h2, h3, h4⟩ := ih (rww.call stdSink c)
    rw [h1, h3, h4]
    cases c with
    | Write buf =>
      refine ⟨?_, ?_, ?_, ?_⟩
      · simp only [ResponseWriterWrapper.call, ResponseWriterWrapper.Write, stdSink]
        split_ifs <;> rfl
      · intro hw
        have := h2 (by simp [ResponseWriterWrapper.call, ResponseWriterWrapper.Write, stdSink, hw])
        rw [this.1, this.2]
        simp [ResponseWriterWrapper.call, ResponseWriterWrapper.Write, stdSink, hw]
      · simp [ResponseWriterWrapper.call, ResponseWriterWrapper.Write, writtenBytes,
          String.append_assoc]
      · simp [ResponseWriterWrapper.call, ResponseWriterWrapper.Write, headerCodes]
    | WriteHeader code =>
      refine ⟨?_, ?_, ?_, ?_⟩
      · simp only [ResponseWriterWrapper.call, ResponseWriterWrapper.WriteHeader, stdSink]
        split_ifs <;> rfl
      · intro hw
        have := h2 (by
          simp [ResponseWriterWrapper.call, ResponseWriterWrapper.WriteHeader, stdSink, hw])
        rw [this.1, this.2]
        simp [ResponseWriterWrapper.call, ResponseWriterWrapper.WriteHeader, stdSink, hw]
      · simp [ResponseWriterWrapper.call, ResponseWriterWrapper.WriteHeader, writtenBytes]
      · simp [ResponseWriterWrapper.call, ResponseWriterWrapper.WriteHeader, headerCodes,
          getLast?_getD_cons]

/-- C9 as stated fails: after `Write("x")` followed by `WriteHeader(404)` on a fresh wrapper
over a standard sink, the sink has committed status 200, while the wrapper has recorded 404
and `String()` reports 404. -/
theorem recorded_status_counterexample :
    ((NewResponseWriterWrapper (StdSink.fresh [])).calls stdSink
        [.Write "x", .WriteHeader 404]).w.committed = some 200 ∧
    ((NewResponseWriterWrapper (StdSink.fresh [])).calls stdSink
        [.Write "x", .WriteHeader 404]).statusCode = 404 ∧
    ((NewResponseWriterWrapper (StdSink.fresh [])).calls stdSink
        [.Write "x", .WriteHeader 404]).String stdSink
      = "Response:Headers: Status Code: 404Bodyx" := by
  decide

/-- C9, amended: for every sequence of calls on a fresh wrapper over a standard sink that
starts with a `Write`, the sink has committed status 200; the status recorded by the wrapper
and reported by `String()` is 200 if the sequence has no `WriteHeader` call, and otherwise
the code of the last `WriteHeader` call. -/
theorem recorded_status_after_first_Write (header : Header) (buf : String) (rest : List Call) :
    ((NewResponseWriterWrapper (StdSink.fresh header)).calls stdSink
        (.Write buf :: rest)).w.committed = some 200 ∧
    ((NewResponseWriterWrapper (StdSink.fresh header)).calls stdSink
        (.Write buf :: rest)).statusCode = (headerCodes rest).getLast?.getD 200 ∧
    ((NewResponseWriterWrapper (StdSink.fresh header)).calls stdSink
        (.Write buf :: rest)).String stdSink
      = header.foldl (fun acc kv => acc ++ (kv.1 ++ ": " ++ fmtStrings kv.2))
          ("" ++ "Response:" ++ "Headers:")
        ++ (" Status Code: " ++ toString ((headerCodes rest).getLast?.getD 200))
        ++ "Body" ++ (buf ++ writtenBytes rest) := by
  rw [calls_cons]
  obtain ⟨h1, h2, h3, h4⟩ := calls_stdSink rest
    ((NewResponseWriterWrapper (StdSink.fresh header)).call stdSink (.Write buf))
  have hw := h2 (by
    simp [ResponseWriterWrapper.call, ResponseWriterWrapper.Write, stdSink,
      NewResponseWriterWrapper, StdSink.fresh])
  refine ⟨?_, ?_, ?_⟩
  · simp only [StdSink.committed, hw.1, hw.2, if_true]
    simp [ResponseWriterWrapper.call, ResponseWriterWrapper.Write, stdSink,
      NewResponseWriterWrapper, StdSink.fresh]
  · rw [h4]
    simp [ResponseWriterWrapper.call, ResponseWriterWrapper.Write, NewResponseWriterWrapper]
  · simp only [ResponseWriterWrapper.String, h3, h4]
    have hh : stdSink.Header (((NewResponseWriterWrapper (StdSink.fresh header)).call stdSink
        (.Write buf)).calls stdSink rest).w = header := by
      show (((NewResponseWriterWrapper (StdSink.fresh header)).call stdSink
        (.Write buf)).calls stdSink rest).w.header = header
      rw [h1]
      simp [ResponseWriterWrapper.call, ResponseWriterWrapper.Write, stdSink,
        NewResponseWriterWrapper, StdSink.fresh]
    rw [hh]
    simp [ResponseWriterWrapper.call, ResponseWriterWrapper.Write, NewResponseWriterWrapper]

/-! ## The logging and rewrite middleware: claim C6 -/

theorem TrimPrefix_append (pre rest : String) : TrimPrefix (pre ++ rest) pre = rest := by
  unfold TrimPrefix
  have h : pre.data <+: (pre ++ rest).data := by
    rw [String.data_append]
    exact List.prefix_append _ _
  rw [if_pos h]
  simp [String.data_append]

theorem TrimPrefix_empty (pre : String) : TrimPrefix "" pre = "" := by
  unfold TrimPrefix
  split_ifs with h
  · simp
  · rfl

/-- C6 as stated fails: for the frontend path `/api/`, the request to `/api/users` reaches
the wrapped handler with path `users`, not `/users` (the handler `echoPath` writes the path
it receives to the sink). -/
theorem LogAndRewrite_counterexample :
    (LogAndRewrite (fun _ => "") ⟨"http", "a", "80", "/api/"⟩ echoPath StdSink stdSink
        (StdSink.fresh []) ⟨"GET", "a", ⟨"/api/users", "", ""⟩, ""⟩).1.body = "users" ∧
    (LogAndRewrite (fun _ => "") ⟨"http", "a", "80", "/api/"⟩ echoPath StdSink stdSink
        (StdSink.fresh []) ⟨"GET", "a", ⟨"/api/users", "", ""⟩, ""⟩).1.body ≠ "/" ++ "users" ∧
    (LogAndRewrite (fun _ => "") ⟨"http", "a", "80", "/api/"⟩ echoRawPath StdSink stdSink
        (StdSink.fresh []) ⟨"GET", "a", ⟨"/api/a b", "/api/a%20b", ""⟩, ""⟩).1.body
      = "a%20b" := by
  decide

/-- C6, amended: when the path of the request is the frontend path `P` followed by a
remainder, `LogAndRewrite` calls the wrapped handler, on a fresh wrapper of the sink, with
the request whose path is that remainder alone (no `/` is put in front of it) and whose raw
path is the raw path without the leading `P`; it returns the sink the handler leaves and
prints the dump, the output of the handler and the summary of the wrapper. A raw path that
is `P` followed by a remainder becomes that remainder, and an empty raw path stays empty. -/
theorem LogAndRewrite_trims_path (dump : Request → String) (entry : URL) (h : HandlerFunc)
    (σ : Type) (W : ResponseWriter σ) (w : σ) (r : Request) (rest : String)
    (hp : r.URL.Path = entry.Path ++ rest) :
    LogAndRewrite dump entry h σ W w r
      = ((h (ResponseWriterWrapper σ) (wrapperWriter W) (NewResponseWriterWrapper w)
            { r with URL := { r.URL with
                Path := rest, RawPath := TrimPrefix r.URL.RawPath entry.Path } }).1.w,
         dump r
          ++ (h (ResponseWriterWrapper σ) (wrapperWriter W) (NewResponseWriterWrapper w)
            { r with URL := { r.URL with
                Path := rest, RawPath := TrimPrefix r.URL.RawPath entry.Path } }).2
          ++ (h (ResponseWriterWrapper σ) (wrapperWriter W) (NewResponseWriterWrapper w)
            { r with URL := { r.URL with
                Path := rest, RawPath := TrimPrefix r.URL.RawPath entry.Path } }).1.String W) ∧
    (∀ rawRest : String, r.URL.RawPath = entry.Path ++ rawRest →
      TrimPrefix r.URL.RawPath entry.Path = rawRest) ∧
    (r.URL.RawPath = "" → TrimPrefix r.URL.RawPath entry.Path = "") := by
  refine ⟨?_, ?_, ?_⟩
  · simp only [LogAndRewrite, hp, TrimPrefix_append]
  · intro rawRest hr
    rw [hr, TrimPrefix_append]
  · intro hr
    rw [hr, TrimPrefix_empty]

/-- Witness of C6, amended: the frontend path `/api/` and the request to `/api/users`, with
the handler `echoPath` on a standard sink. -/
theorem LogAndRewrite_trims_path_witness :
    LogAndRewrite (fun _ => "") ⟨"http", "a", "80", "/api/"⟩ echoPath StdSink stdSink
        (StdSink.fresh []) ⟨"GET", "a", ⟨"/api/users", "", ""⟩, ""⟩
      = ((echoPath (ResponseWriterWrapper StdSink) (wrapperWriter stdSink)
            (NewResponseWriterWrapper (StdSink.fresh []))
            ⟨"GET", "a", ⟨"users", "", ""⟩, ""⟩).1.w,
         "Response:Headers: Status Code: 200Bodyusers") :=
  (LogAndRewrite_trims_path (fun _ => "") ⟨"http", "a", "80", "/api/"⟩ echoPath StdSink
    stdSink (StdSink.fresh []) ⟨"GET", "a", ⟨"/api/users", "", ""⟩, ""⟩ "users"
    (by decide)).1.trans (by decide)

/-! ## The route table loop of `Run`: claims C3, C4, C5 and C10 -/

theorem groupUpdate_eq {K E B : Type} [DecidableEq K] [DecidableEq E]
    (m : List (K × List (E × B))) (k : K) (e : E) (b : B) :
    mapSet (if (mapGet m k).isNone then mapSet m k [] else m) k
        (mapSet ((mapGet (if (mapGet m k).isNone then mapSet m k [] else m) k).getD []) e b)
      = mapSet m k (mapSet ((mapGet m k).getD []) e b) := by
  cases h : mapGet m k with
  | none => simp [mapGet_mapSet_self, mapSet_mapSet]
  | some g => simp [h]

theorem runLoopBody_invalid (stdParse : StdParser) (t : Tables) (entry backend : String)
    (h : validEntry stdParse (entry, backend) = false) :
    runLoopBody stdParse t entry backend = some t := by
  unfold runLoopBody
  rcases h1 : Parse stdParse entry with ⟨e, _ | err⟩
  · rcases h2 : Parse stdParse backend with ⟨b, _ | err⟩
    · simp [validEntry, h1, h2] at h
    · rfl
  · rfl

/-- The loop body on a valid entry is `recordRoute` on the two parsed addresses. -/
theorem runLoopBody_valid (stdParse : StdParser) (t : Tables) (entry backend : String)
    (h : validEntry stdParse (entry, backend) = true) :
    runLoopBody stdParse t entry backend
      = recordRoute t (frontendOf stdParse (entry, backend))
          (backendOf stdParse (entry, backend)) := by
  unfold runLoopBody recordRoute frontendOf backendOf
  rcases h1 : Parse stdParse entry with ⟨e, _ | err⟩
  · rcases h2 : Parse stdParse backend with ⟨b, _ | err⟩
    · simp only
      cases h3 : mapGet t.portToScheme e.Port with
      | none =>
        simp only [Option.isNone_none, if_true, mapGet_mapSet_self, Option.getD_some,
          ne_eq, not_true_eq_false, if_false, groupUpdate_eq]
      | some s =>
        by_cases hs : s = e.Scheme
        · have g := groupUpdate_eq t.portToHostPathMap e.Port e b
          simp only [Option.isNone_iff_eq_none] at g
          simp [h3, hs, g]
        · simp [h3, hs]
    · simp [validEntry, h1, h2] at h
  · simp [validEntry, h1] at h

theorem runLoop_cons (stdParse : StdParser) (fb : String × String)
    (rest : List (String × String)) (t : Tables) :
    runLoop stdParse (fb :: rest) t
      = (runLoopBody stdParse t fb.1 fb.2).bind (runLoop stdParse rest) := by
  obtain ⟨entry, backend⟩ := fb
  simp only [runLoop]
  cases runLoopBody stdParse t entry backend <;> rfl

theorem runLoop_cons_invalid (stdParse : StdParser) (fb : String × String)
    (rest : List (String × String)) (t : Tables) (h : validEntry stdParse fb = false) :
    runLoop stdParse (fb :: rest) t = runLoop stdParse rest t := by
  rw [runLoop_cons, runLoopBody_invalid stdParse t fb.1 fb.2 h]
  rfl

theorem runLoop_cons_valid (stdParse : StdParser) (fb : String × String)
    (rest : List (String × String)) (t : Tables) (h : validEntry stdParse fb = true) :
    runLoop stdParse (fb :: rest) t
      = (recordRoute t (frontendOf stdParse fb) (backendOf stdParse fb)).bind
          (runLoop stdParse rest) := by
  rw [runLoop_cons, runLoopBody_valid stdParse t fb.1 fb.2 h]

theorem runLoop_filter (stdParse : StdParser) (proxy : List (String × String)) (t : Tables) :
    runLoop stdParse proxy t = runLoop stdParse (proxy.filter (validEntry stdParse)) t := by
  induction proxy generalizing t with
  | nil => rfl
  | cons fb rest ih =>
    cases h : validEntry stdParse fb with
    | false =>
      rw [runLoop_cons_invalid stdParse fb rest t h, List.filter_cons_of_neg (by simp [h])]
      exact ih t
    | true =>
      rw [runLoop_cons_valid stdParse fb rest t h, List.filter_cons_of_pos (by simp [h]),
        runLoop_cons_valid stdParse fb _ t h]
      cases recordRoute t (frontendOf stdParse fb) (backendOf stdParse fb) with
      | none => rfl
      | some t' => exact ih t'

/-- What `recordRoute` leaves when it does not leave the loop. -/
theorem recordRoute_some (t t' : Tables) (e b : URL) (h : recordRoute t e b = some t') :
    t'.portToHostPathMap = mapSet t.portToHostPathMap e.Port
        (mapSet ((mapGet t.portToHostPathMap e.Port).getD []) e b) ∧
    mapGet t'.portToScheme e.Port = some e.Scheme ∧
    (∀ p s, mapGet t.portToScheme p = some s → mapGet t'.portToScheme p = some s) ∧
    (∀ p s, mapGet t'.portToScheme p = some s →
      mapGet t.portToScheme p = some s ∨ (p = e.Port ∧ s = e.Scheme)) ∧
    (∀ p, p ∈ mapKeys t'.portToScheme ↔ p = e.Port ∨ p ∈ mapKeys t.portToScheme) ∧
    ((mapKeys t.portToScheme).Nodup → (mapKeys t'.portToScheme).Nodup) := by
  unfold recordRoute at h
  cases h3 : mapGet t.portToScheme e.Port with
  | none =>
    simp only [h3, Option.some.injEq] at h
    subst h
    refine ⟨rfl, mapGet_mapSet_self _ _ _, ?_, ?_, ?_, ?_⟩
    · intro p s hp
      rw [mapGet_mapSet]
      by_cases hpe : e.Port = p
      · rw [hpe, hp] at h3
        exact absurd h3 (by simp)
      · simpa [hpe] using hp
    · intro p s hp
      rw [mapGet_mapSet] at hp
      by_cases hpe : e.Port = p
      · simp only [hpe, if_true, Option.some.injEq] at hp
        exact Or.inr ⟨hpe.symm, hp.symm⟩
      · simp only [hpe, if_false] at hp
        exact Or.inl hp
    · intro p
      exact mem_mapKeys_mapSet _ _ _ _
    · exact nodup_mapKeys_mapSet _ _ _
  | some s =>
    by_cases hs : s = e.Scheme
    · simp only [h3, hs, if_true, Option.some.injEq] at h
      subst h
      refine ⟨rfl, ?_, ?_, ?_, ?_, ?_⟩
      · simp only [h3, hs]
      · intro p s' hp
        exact hp
      · intro p s' hp
        exact Or.inl hp
      · intro p
        constructor
        · exact Or.inr
        · rintro (hp | hp)
          · subst hp
            by_contra hc
            rw [← mapGet_eq_none_iff, h3] at hc
            exact absurd hc (by simp)
          · exact hp
      · exact id
    · simp [h3, hs] at h

theorem runLoop_append (stdParse : StdParser) (l1 l2 : List (String × String)) (t : Tables) :
    runLoop stdParse (l1 ++ l2) t = (runLoop stdParse l1 t).bind (runLoop stdParse l2) := by
  induction l1 generalizing t with
  | nil => rfl
  | cons fb rest ih =>
    rw [List.cons_append, runLoop_cons, runLoop_cons]
    cases runLoopBody stdParse t fb.1 fb.2 with
    | none => rfl
    | some t' => exact ih t'

/-- Schemes recorded before the loop stay, and the loop, when it ends, has recorded the
scheme of every valid entry for the port of that entry. -/
theorem runLoop_scheme (stdParse : StdParser) (proxy : List (String × String))
    (t0 t : Tables) (h : runLoop stdParse proxy t0 = some t) :
    (∀ p s, mapGet t0.portToScheme p = some s → mapGet t.portToScheme p = some s) ∧
    (∀ fb ∈ proxy, validEntry stdParse fb = true →
      mapGet t.portToScheme (frontendOf stdParse fb).Port
        = some (frontendOf stdParse fb).Scheme) := by
  induction proxy generalizing t0 with
  | nil =>
    simp only [runLoop, Option.some.injEq] at h
    subst h
    exact ⟨fun _ _ hp => hp, by simp⟩
  | cons fb rest ih =>
    cases hv : validEntry stdParse fb with
    | false =>
      rw [runLoop_cons_invalid stdParse fb rest t0 hv] at h
      obtain ⟨h1, h2⟩ := ih t0 h
      refine ⟨h1, ?_⟩
      intro x hx vx
      rcases List.mem_cons.mp hx with rfl | hx
      · rw [hv] at vx
        exact absurd vx (by simp)
      · exact h2 x hx vx
    | true =>
      rw [runLoop_cons_valid stdParse fb rest t0 hv] at h
      obtain ⟨t1, hr, hl⟩ := Option.bind_eq_some.mp h
      obtain ⟨_, r2, r3, _, _, _⟩ := recordRoute_some t0 t1 _ _ hr
      obtain ⟨h1, h2⟩ := ih t1 hl
      refine ⟨fun p s hp => h1 p s (r3 p s hp), ?_⟩
      intro x hx vx
      rcases List.mem_cons.mp hx with rfl | hx
      · exact h1 _ _ r2
      · exact h2 x hx vx

/-- When the loop is left, a valid entry has met another scheme for its port: one recorded
before the loop, or the one of another valid entry. -/
theorem runLoop_none (stdParse : StdParser) (proxy : List (String × String))
    (t0 : Tables) (h : runLoop stdParse proxy t0 = none) :
    ∃ y ∈ proxy, validEntry stdParse y = true ∧
      ((∃ s, mapGet t0.portToScheme (frontendOf stdParse y).Port = some s ∧
          s ≠ (frontendOf stdParse y).Scheme) ∨
       ∃ x ∈ proxy, validEntry stdParse x = true ∧
          (frontendOf stdParse x).Port = (frontendOf stdParse y).Port ∧
          (frontendOf stdParse x).Scheme ≠ (frontendOf stdParse y).Scheme) := by
  induction proxy generalizing t0 with
  | nil => simp [runLoop] at h
  | cons fb rest ih =>
    cases hv : validEntry stdParse fb with
    | false =>
      rw [runLoop_cons_invalid stdParse fb rest t0 hv] at h
      obtain ⟨y, hy, vy, hc⟩ := ih t0 h
      refine ⟨y, List.mem_cons_of_mem _ hy, vy, ?_⟩
      rcases hc with hc | ⟨x, hx, vx, hxy⟩
      · exact Or.inl hc
      · exact Or.inr ⟨x, List.mem_cons_of_mem _ hx, vx, hxy⟩
    | true =>
      rw [runLoop_cons_valid stdParse fb rest t0 hv] at h
      cases hr : recordRoute t0 (frontendOf stdParse fb) (backendOf stdParse fb) with
      | none =>
        refine ⟨fb, List.mem_cons_self _ _, hv, Or.inl ?_⟩
        unfold recordRoute at hr
        cases h3 : mapGet t0.portToScheme (frontendOf stdParse fb).Port with
        | none => simp [h3] at hr
        | some s =>
          by_cases hs : s = (frontendOf stdParse fb).Scheme
          · simp [h3, hs] at hr
          · exact ⟨s, rfl, hs⟩
      | some t1 =>
        rw [hr] at h
        obtain ⟨y, hy, vy, hc⟩ := ih t1 h
        obtain ⟨_, _, _, r4, _, _⟩ := recordRoute_some t0 t1 _ _ hr
        refine ⟨y, List.mem_cons_of_mem _ hy, vy, ?_⟩
        rcases hc with ⟨s, hs, hne⟩ | ⟨x, hx, vx, hxy⟩
        · rcases r4 _ _ hs with h0 | ⟨hp, hs'⟩
          · exact Or.inl ⟨s, h0, hne⟩
          · exact Or.inr ⟨fb, List.mem_cons_self _ _, hv, hp.symm, hs' ▸ hne⟩
        · exact Or.inr ⟨x, List.mem_cons_of_mem _ hx, vx, hxy⟩

/-- The loop is left exactly when two valid entries have the same frontend port and
different frontend schemes. -/
theorem runLoop_none_iff (stdParse : StdParser) (proxy : List (String × String)) :
    runLoop stdParse proxy Tables.empty = none ↔
      ∃ x ∈ proxy, ∃ y ∈ proxy, validEntry stdParse x = true ∧ validEntry stdParse y = true ∧
        (frontendOf stdParse x).Port = (frontendOf stdParse y).Port ∧
        (frontendOf stdParse x).Scheme ≠ (frontendOf stdParse y).Scheme := by
  constructor
  · intro h
    obtain ⟨y, hy, vy, hc⟩ := runLoop_none stdParse proxy Tables.empty h
    rcases hc with ⟨s, hs, _⟩ | ⟨x, hx, vx, hp, hs⟩
    · simp [Tables.empty, mapGet] at hs
    · exact ⟨x, hx, y, hy, vx, vy, hp, hs⟩
  · rintro ⟨x, hx, y, hy, vx, vy, hp, hs⟩
    cases h : runLoop stdParse proxy Tables.empty with
    | none => rfl
    | some t =>
      obtain ⟨_, h2⟩ := runLoop_scheme stdParse proxy Tables.empty t h
      have h3 := h2 x hx vx
      have h4 := h2 y hy vy
      rw [hp, h4] at h3
      exact absurd (Option.some.inj h3).symm hs

theorem Run_eq_none (stdParse : StdParser) (proxy : List (String × String))
    (h : runLoop stdParse proxy Tables.empty = none) : Run stdParse proxy = none := by
  simp [Run, h]

/-- C3 as stated fails: in the mapping below the two frontends have the port 8080 and the
schemes `http` and `https`, but the backend of the first entry has the scheme `ftp`, so that
entry is skipped; in either order `Run` goes on and starts a server on port 8080. -/
theorem scheme_conflict_counterexample :
    (Parse sampleParse "http://a:8080/") = (⟨"http", "a", "8080", "/"⟩, none) ∧
    (Parse sampleParse "https://b:8080/") = (⟨"https", "b", "8080", "/"⟩, none) ∧
    Run sampleParse [("http://a:8080/", "ftp://d/"), ("https://b:8080/", "https://c/x")]
      = some [("8080", ⟨":8080", [⟨"b/", ⟨"https", "b", "8080", "/"⟩, "https://c:443/x"⟩]⟩)] ∧
    Run sampleParse [("https://b:8080/", "https://c/x"), ("http://a:8080/", "ftp://d/")]
      = some [("8080", ⟨":8080", [⟨"b/", ⟨"https", "b", "8080", "/"⟩, "https://c:443/x"⟩]⟩)] := by
  decide

/-- C3, amended: when the mapping has two valid entries (frontend and backend both accepted
by `url.Parse`) whose frontends have the same port and different schemes, then in whatever
order the entries are visited the loop is left by the `return` of line 70, and `Run` returns
before the map of servers is made. -/
theorem scheme_conflict_aborts (stdParse : StdParser) (proxy : List (String × String))
    (x y : String × String) (hx : x ∈ proxy) (hy : y ∈ proxy)
    (vx : validEntry stdParse x = true) (vy : validEntry stdParse y = true)
    (hp : (frontendOf stdParse x).Port = (frontendOf stdParse y).Port)
    (hs : (frontendOf stdParse x).Scheme ≠ (frontendOf stdParse y).Scheme)
    (order : List (String × String)) (ho : order.Perm proxy) :
    runLoop stdParse order Tables.empty = none ∧ Run stdParse order = none := by
  have h : runLoop stdParse order Tables.empty = none :=
    (runLoop_none_iff stdParse order).mpr
      ⟨x, ho.mem_iff.mpr hx, y, ho.mem_iff.mpr hy, vx, vy, hp, hs⟩
  exact ⟨h, Run_eq_none stdParse order h⟩

/-- Witness of C3, amended: `http://a:8080/` and `https://b:8080/` with valid backends, the
entries visited in the reverse order. -/
theorem scheme_conflict_aborts_witness :
    Run sampleParse [("https://b:8080/", "https://c/x"), ("http://a:8080/", "http://b1/")]
      = none :=
  (scheme_conflict_aborts sampleParse
    [("http://a:8080/", "http://b1/"), ("https://b:8080/", "https://c/x")]
    ("http://a:8080/", "http://b1/") ("https://b:8080/", "https://c/x")
    (by simp) (by simp) (by decide) (by decide) (by decide) (by decide)
    [("https://b:8080/", "https://c/x"), ("http://a:8080/", "http://b1/")]
    (List.Perm.swap _ _ _)).2

/-- C4: an entry whose frontend or backend `url.Parse` rejects leaves the tables as they
are and the loop goes on; the loop on a mapping gives what it gives on the mapping without
its invalid entries (visited in the same order), be it the tables or the `return`; and every
order of visit of the mapping without its invalid entries comes from an order of visit of
the whole mapping with the same outcome. -/
theorem invalid_entries_skipped (stdParse : StdParser) (proxy : List (String × String)) :
    (∀ (t : Tables) (entry backend : String),
      ((Parse stdParse entry).2.isSome ∨ (Parse stdParse backend).2.isSome) →
      runLoopBody stdParse t entry backend = some t) ∧
    runLoop stdParse proxy Tables.empty
      = runLoop stdParse (proxy.filter (validEntry stdParse)) Tables.empty ∧
    Run stdParse proxy = Run stdParse (proxy.filter (validEntry stdParse)) ∧
    ∀ order, order.Perm (proxy.filter (validEntry stdParse)) →
      ∃ full, full.Perm proxy ∧
        runLoop stdParse full Tables.empty = runLoop stdParse order Tables.empty := by
  refine ⟨?_, runLoop_filter stdParse proxy Tables.empty, ?_, ?_⟩
  · intro t entry backend h
    apply runLoopBody_invalid
    rcases h with h | h
    · cases h1 : (Parse stdParse entry).2 <;> simp_all [validEntry]
    · cases h1 : (Parse stdParse backend).2 <;> simp_all [validEntry]
  · simp only [Run]
    rw [← runLoop_filter stdParse proxy Tables.empty]
  · intro order ho
    refine ⟨order ++ proxy.filter (fun fb => !validEntry stdParse fb), ?_, ?_⟩
    · refine (List.Perm.append_right _ ho).trans ?_
      exact List.filter_append_perm (validEntry stdParse) proxy
    · rw [runLoop_filter stdParse (order ++ _), List.filter_append]
      have h1 : List.filter (validEntry stdParse)
          (proxy.filter (fun fb => !validEntry stdParse fb)) = [] := by
        simp [List.filter_eq_nil_iff]
      have h2 : List.filter (validEntry stdParse) order = order := by
        rw [List.filter_eq_self]
        intro a ha
        have := ho.mem_iff.mp ha
        exact (List.mem_filter.mp this).2
      rw [h1, h2, List.append_nil]

/-- Witness of C4: an entry with a valid frontend and an invalid backend is skipped, and the
tables are those of the mapping without it. -/
theorem invalid_entries_skipped_witness :
    runLoopBody sampleParse Tables.empty "http://a:8080/" "ftp://d/" = some Tables.empty ∧
    runLoop sampleParse
        [("http://a:8080/", "ftp://d/"), ("https://b:8080/", "https://c/x")] Tables.empty
      = runLoop sampleParse [("https://b:8080/", "https://c/x")] Tables.empty :=
  ⟨(invalid_entries_skipped sampleParse []).1 Tables.empty "http://a:8080/" "ftp://d/"
      (by decide),
   (invalid_entries_skipped sampleParse
      [("http://a:8080/", "ftp://d/"), ("https://b:8080/", "https://c/x")]).2.1.trans
      (by decide)⟩

theorem Tables.WF_empty : Tables.empty.WF := by
  simp [Tables.WF, Tables.empty, mapKeys]

/-- The loop body on a valid entry keeps the Port Group invariant. -/
theorem recordRoute_WF (t t' : Tables) (e b : URL) (h : recordRoute t e b = some t')
    (wf : t.WF) : t'.WF := by
  obtain ⟨r1, r2, r3, _, _, r6⟩ := recordRoute_some t t' e b h
  obtain ⟨w1, w2, w3⟩ := wf
  refine ⟨r6 w1, ?_, ?_⟩
  · rw [r1]
    exact nodup_mapKeys_mapSet _ _ _ w2
  · intro pg hpg eb heb
    rw [r1] at hpg
    rcases mem_mapSet _ _ _ _ hpg with hpg | hpg
    · subst hpg
      rcases mem_mapSet _ _ _ _ heb with heb | heb
      · subst heb
        exact ⟨rfl, r2⟩
      · cases hg : mapGet t.portToHostPathMap e.Port with
        | none => simp [hg] at heb
        | some g =>
          simp only [hg, Option.getD_some] at heb
          obtain ⟨a1, a2⟩ := w3 (e.Port, g) (mem_of_mapGet _ _ _ hg) eb heb
          exact ⟨a1, r3 _ _ a2⟩
    · obtain ⟨a1, a2⟩ := w3 pg hpg eb heb
      exact ⟨a1, r3 _ _ a2⟩

/-- The loop keeps the Port Group invariant, and the ports of the two tables after the loop
are those before it and the frontend ports of the valid entries. -/
theorem runLoop_WF (stdParse : StdParser) (proxy : List (String × String))
    (t0 t : Tables) (h : runLoop stdParse proxy t0 = some t) (wf : t0.WF) :
    t.WF ∧
    (∀ p, p ∈ mapKeys t.portToHostPathMap ↔ p ∈ mapKeys t0.portToHostPathMap ∨
      ∃ fb ∈ proxy, validEntry stdParse fb = true ∧ (frontendOf stdParse fb).Port = p) ∧
    (∀ p, p ∈ mapKeys t.portToScheme ↔ p ∈ mapKeys t0.portToScheme ∨
      ∃ fb ∈ proxy, validEntry stdParse fb = true ∧ (frontendOf stdParse fb).Port = p) := by
  induction proxy generalizing t0 with
  | nil =>
    simp only [runLoop, Option.some.injEq] at h
    subst h
    exact ⟨wf, by simp, by simp⟩
  | cons fb rest ih =>
    cases hv : validEntry stdParse fb with
    | false =>
      rw [runLoop_cons_invalid stdParse fb rest t0 hv] at h
      obtain ⟨h1, h2, h3⟩ := ih t0 h wf
      refine ⟨h1, ?_, ?_⟩
      · intro p
        rw [h2 p]
        constructor
        · rintro (hp | ⟨x, hx, vx, hxp⟩)
          · exact Or.inl hp
          · exact Or.inr ⟨x, List.mem_cons_of_mem _ hx, vx, hxp⟩
        · rintro (hp | ⟨x, hx, vx, hxp⟩)
          · exact Or.inl hp
          · rcases List.mem_cons.mp hx with rfl | hx
            · rw [hv] at vx
              exact absurd vx (by simp)
            · exact Or.inr ⟨x, hx, vx, hxp⟩
      · intro p
        rw [h3 p]
        constructor
        · rintro (hp | ⟨x, hx, vx, hxp⟩)
          · exact Or.inl hp
          · exact Or.inr ⟨x, List.mem_cons_of_mem _ hx, vx, hxp⟩
        · rintro (hp | ⟨x, hx, vx, hxp⟩)
          · exact Or.inl hp
          · rcases List.mem_cons.mp hx with rfl | hx
            · rw [hv] at vx
              exact absurd vx (by simp)
            · exact Or.inr ⟨x, hx, vx, hxp⟩
    | true =>
      rw [runLoop_cons_valid stdParse fb rest t0 hv] at h
      obtain ⟨t1, hr, hl⟩ := Option.bind_eq_some.mp h
      obtain ⟨r1, _, _, _, r5, _⟩ := recordRoute_some t0 t1 _ _ hr
      obtain ⟨h1, h2, h3⟩ := ih t1 hl (recordRoute_WF t0 t1 _ _ hr wf)
      refine ⟨h1, ?_, ?_⟩
      · intro p
        rw [h2 p, r1, mem_mapKeys_mapSet]
        constructor
        · rintro ((hp | hp) | ⟨x, hx, vx, hxp⟩)
          · exact Or.inr ⟨fb, List.mem_cons_self _ _, hv, hp.symm⟩
          · exact Or.inl hp
          · exact Or.inr ⟨x, List.mem_cons_of_mem _ hx, vx, hxp⟩
        · rintro (hp | ⟨x, hx, vx, hxp⟩)
          · exact Or.inl (Or.inr hp)
          · rcases List.mem_cons.mp hx with rfl | hx
            · exact Or.inl (Or.inl hxp.symm)
            · exact Or.inr ⟨x, hx, vx, hxp⟩
      · intro p
        rw [h3 p, r5 p]
        constructor
        · rintro ((hp | hp) | ⟨x, hx, vx, hxp⟩)
          · exact Or.inr ⟨fb, List.mem_cons_self _ _, hv, hp.symm⟩
          · exact Or.inl hp
          · exact Or.inr ⟨x, List.mem_cons_of_mem _ hx, vx, hxp⟩
        · rintro (hp | ⟨x, hx, vx, hxp⟩)
          · exact Or.inl (Or.inr hp)
          · rcases List.mem_cons.mp hx with rfl | hx
            · exact Or.inl (Or.inl hxp.symm)
            · exact Or.inr ⟨x, hx, vx, hxp⟩

/-- C5: when the loop ends without the `return`, no port has two groups and no port has two
recorded schemes, the ports that have a group (and those that have a recorded scheme) are
exactly the frontend ports of the valid entries, and every frontend stored as a key in the
group of a port `p` has the port `p` and the scheme recorded for `p`. -/
theorem portGroup_invariant (stdParse : StdParser) (proxy : List (String × String))
    (t : Tables) (h : runLoop stdParse proxy Tables.empty = some t) :
    (mapKeys t.portToHostPathMap).Nodup ∧ (mapKeys t.portToScheme).Nodup ∧
    (∀ p, p ∈ mapKeys t.portToHostPathMap ↔
      ∃ fb ∈ proxy, validEntry stdParse fb = true ∧ (Parse stdParse fb.1).1.Port = p) ∧
    (∀ p, p ∈ mapKeys t.portToScheme ↔
      ∃ fb ∈ proxy, validEntry stdParse fb = true ∧ (Parse stdParse fb.1).1.Port = p) ∧
    (∀ p group e b, (p, group) ∈ t.portToHostPathMap → (e, b) ∈ group →
      e.Port = p ∧ mapGet t.portToScheme p = some e.Scheme) := by
  obtain ⟨⟨w1, w2, w3⟩, h2, h3⟩ := runLoop_WF stdParse proxy Tables.empty t h Tables.WF_empty
  refine ⟨w2, w1, ?_, ?_, ?_⟩
  · intro p
    rw [h2 p]
    simp [Tables.empty, mapKeys, frontendOf]
  · intro p
    rw [h3 p]
    simp [Tables.empty, mapKeys, frontendOf]
  · intro p group e b hpg heb
    exact w3 (p, group) hpg (e, b) heb

/-- Witness of C5: two valid entries on port 80 and one on port 8080. -/
theorem portGroup_invariant_witness :
    runLoop sampleParse
        [("http://a/", "http://b1/"), ("https://b:8080/", "https://c/x"),
          ("http://a:80/", "http://b2/")] Tables.empty
      = some ⟨[("80", "http"), ("8080", "https")],
          [("80", [(⟨"http", "a", "80", "/"⟩, ⟨"http", "b2", "80", "/"⟩)]),
           ("8080", [(⟨"https", "b", "8080", "/"⟩, ⟨"https", "c", "443", "/x"⟩)])]⟩ ∧
    (mapKeys [("80", [((⟨"http", "a", "80", "/"⟩ : URL), (⟨"http", "b2", "80", "/"⟩ : URL))]),
           ("8080", [(⟨"https", "b", "8080", "/"⟩, ⟨"https", "c", "443", "/x"⟩)])]).Nodup :=
  ⟨by decide,
   (portGroup_invariant sampleParse
      [("http://a/", "http://b1/"), ("https://b:8080/", "https://c/x"),
        ("http://a:80/", "http://b2/")]
      ⟨[("80", "http"), ("8080", "https")],
          [("80", [(⟨"http", "a", "80", "/"⟩, ⟨"http", "b2", "80", "/"⟩)]),
           ("8080", [(⟨"https", "b", "8080", "/"⟩, ⟨"https", "c", "443", "/x"⟩)])]⟩
      (by decide)).1⟩

/-- The routes after the loop body on a valid entry: the backend `b` under the frontend
`e` in the group of the port of `e`, and the routes before it elsewhere. -/
theorem recordRoute_route (t t' : Tables) (e b : URL) (h : recordRoute t e b = some t')
    (p : String) (e' : URL) :
    t'.route p e' = if e.Port = p ∧ e = e' then some b else t.route p e' := by
  obtain ⟨r1, _⟩ := recordRoute_some t t' e b h
  unfold Tables.route
  rw [r1, mapGet_mapSet]
  by_cases hp : e.Port = p
  · subst hp
    simp only [if_true, Option.some_bind, true_and, mapGet_mapSet]
    by_cases he : e = e'
    · simp [he]
    · simp only [he, if_false]
      cases mapGet t.portToHostPathMap e.Port <;> simp [mapGet]
  · simp [hp]

/-- When no two valid entries have the same frontend `URL` and different backend `URL`s,
the routes after the loop are the pairs of frontend and backend of the valid entries. -/
theorem runLoop_route (stdParse : StdParser) (proxy : List (String × String))
    (H : ∀ x ∈ proxy, ∀ y ∈ proxy, validEntry stdParse x = true →
      validEntry stdParse y = true → frontendOf stdParse x = frontendOf stdParse y →
      backendOf stdParse x = backendOf stdParse y)
    (t : Tables) (h : runLoop stdParse proxy Tables.empty = some t)
    (p : String) (e b : URL) :
    t.route p e = some b ↔
      ∃ x ∈ proxy, validEntry stdParse x = true ∧ frontendOf stdParse x = e ∧
        e.Port = p ∧ backendOf stdParse x = b := by
  induction proxy using List.reverseRecOn generalizing t with
  | nil =>
    simp only [runLoop, Option.some.injEq] at h
    subst h
    simp [Tables.route, Tables.empty, mapGet]
  | append_singleton l fb ih =>
    rw [runLoop_append] at h
    obtain ⟨t1, hl, hb⟩ := Option.bind_eq_some.mp h
    have H' : ∀ x ∈ l, ∀ y ∈ l, validEntry stdParse x = true →
        validEntry stdParse y = true → frontendOf stdParse x = frontendOf stdParse y →
        backendOf stdParse x = backendOf stdParse y :=
      fun x hx y hy => H x (List.mem_append_left _ hx) y (List.mem_append_left _ hy)
    have ih1 := ih H' t1 hl
    cases hv : validEntry stdParse fb with
    | false =>
      rw [runLoop_cons_invalid stdParse fb [] t1 hv] at hb
      simp only [runLoop, Option.some.injEq] at hb
      subst hb
      rw [ih1]
      constructor
      · rintro ⟨x, hx, hrest⟩
        exact ⟨x, List.mem_append_left _ hx, hrest⟩
      · rintro ⟨x, hx, vx, hrest⟩
        rcases List.mem_append.mp hx with hx | hx
        · exact ⟨x, hx, vx, hrest⟩
        · rw [List.mem_singleton.mp hx, hv] at vx
          exact absurd vx (by simp)
    | true =>
      rw [runLoop_cons_valid stdParse fb [] t1 hv] at hb
      obtain ⟨t2, hr, hn⟩ := Option.bind_eq_some.mp hb
      simp only [runLoop, Option.some.injEq] at hn
      subst hn
      rw [recordRoute_route t1 t2 _ _ hr p e]
      by_cases hc : (frontendOf stdParse fb).Port = p ∧ frontendOf stdParse fb = e
      · rw [if_pos hc]
        constructor
        · intro hb'
          refine ⟨fb, List.mem_append_right _ (List.mem_singleton_self _), hv, hc.2, ?_,
            Option.some.inj hb'⟩
          rw [← hc.2]
          exact hc.1
        · rintro ⟨x, hx, vx, hxe, _, hxb⟩
          have := H x hx fb (List.mem_append_right _ (List.mem_singleton_self _)) vx hv
            (hxe.trans hc.2.symm)
          rw [← this, hxb]
      · rw [if_neg hc, ih1]
        constructor
        · rintro ⟨x, hx, hrest⟩
          exact ⟨x, List.mem_append_left _ hx, hrest⟩
        · rintro ⟨x, hx, vx, hxe, hep, hxb⟩
          rcases List.mem_append.mp hx with hx | hx
          · exact ⟨x, hx, vx, hxe, hep, hxb⟩
          · rw [List.mem_singleton.mp hx] at hxe
            exact absurd ⟨hxe ▸ hep, hxe⟩ hc

/-- The scheme recorded for a port after the loop is the frontend scheme of a valid entry
with that port. -/
theorem runLoop_scheme_iff (stdParse : StdParser) (proxy : List (String × String))
    (t : Tables) (h : runLoop stdParse proxy Tables.empty = some t) (p s : String) :
    mapGet t.portToScheme p = some s ↔
      ∃ x ∈ proxy, validEntry stdParse x = true ∧ (frontendOf stdParse x).Port = p ∧
        (frontendOf stdParse x).Scheme = s := by
  obtain ⟨_, h2⟩ := runLoop_scheme stdParse proxy Tables.empty t h
  obtain ⟨_, _, h3⟩ := runLoop_WF stdParse proxy Tables.empty t h Tables.WF_empty
  constructor
  · intro hp
    have hk : p ∈ mapKeys t.portToScheme := by
      by_contra hc
      rw [← mapGet_eq_none_iff, hp] at hc
      exact absurd hc (by simp)
    rcases (h3 p).mp hk with hk | ⟨x, hx, vx, hxp⟩
    · simp [Tables.empty, mapKeys] at hk
    · refine ⟨x, hx, vx, hxp, ?_⟩
      have := h2 x hx vx
      rw [hxp, hp] at this
      exact (Option.some.inj this).symm
  · rintro ⟨x, hx, vx, hxp, hxs⟩
    rw [← hxp, ← hxs]
    exact h2 x hx vx

/-- The order of visit does not matter when no two valid entries have the same frontend
`URL` and different backend `URL`s: two orders of the same entries both leave the loop by
the `return`, or both end with the same recorded schemes, the same ports with a group and
the same routes. -/
theorem runLoop_order_independent (stdParse : StdParser) (l1 l2 : List (String × String))
    (hperm : l1.Perm l2)
    (H : ∀ x ∈ l1, ∀ y ∈ l1, validEntry stdParse x = true →
      validEntry stdParse y = true → frontendOf stdParse x = frontendOf stdParse y →
      backendOf stdParse x = backendOf stdParse y) :
    (runLoop stdParse l1 Tables.empty = none ↔ runLoop stdParse l2 Tables.empty = none) ∧
    ∀ t1 t2, runLoop stdParse l1 Tables.empty = some t1 →
      runLoop stdParse l2 Tables.empty = some t2 →
      (∀ p, mapGet t1.portToScheme p = mapGet t2.portToScheme p) ∧
      (∀ p, p ∈ mapKeys t1.portToHostPathMap ↔ p ∈ mapKeys t2.portToHostPathMap) ∧
      (∀ p e, t1.route p e = t2.route p e) := by
  constructor
  · rw [runLoop_none_iff, runLoop_none_iff]
    constructor
    · rintro ⟨x, hx, y, hy, hrest⟩
      exact ⟨x, hperm.mem_iff.mp hx, y, hperm.mem_iff.mp hy, hrest⟩
    · rintro ⟨x, hx, y, hy, hrest⟩
      exact ⟨x, hperm.mem_iff.mpr hx, y, hperm.mem_iff.mpr hy, hrest⟩
  · intro t1 t2 h1 h2
    have H2 : ∀ x ∈ l2, ∀ y ∈ l2, validEntry stdParse x = true →
        validEntry stdParse y = true → frontendOf stdParse x = frontendOf stdParse y →
        backendOf stdParse x = backendOf stdParse y :=
      fun x hx y hy => H x (hperm.mem_iff.mpr hx) y (hperm.mem_iff.mpr hy)
    refine ⟨?_, ?_, ?_⟩
    · intro p
      apply Option.ext
      intro s
      rw [Option.mem_def, Option.mem_def,
        runLoop_scheme_iff stdParse l1 t1 h1, runLoop_scheme_iff stdParse l2 t2 h2]
      constructor
      · rintro ⟨x, hx, hrest⟩
        exact ⟨x, hperm.mem_iff.mp hx, hrest⟩
      · rintro ⟨x, hx, hrest⟩
        exact ⟨x, hperm.mem_iff.mpr hx, hrest⟩
    · intro p
      rw [(runLoop_WF stdParse l1 Tables.empty t1 h1 Tables.WF_empty).2.1 p,
        (runLoop_WF stdParse l2 Tables.empty t2 h2 Tables.WF_empty).2.1 p]
      constructor
      · rintro (hp | ⟨x, hx, hrest⟩)
        · exact Or.inl hp
        · exact Or.inr ⟨x, hperm.mem_iff.mp hx, hrest⟩
      · rintro (hp | ⟨x, hx, hrest⟩)
        · exact Or.inl hp
        · exact Or.inr ⟨x, hperm.mem_iff.mpr hx, hrest⟩
    · intro p e
      apply Option.ext
      intro b
      rw [Option.mem_def, Option.mem_def,
        runLoop_route stdParse l1 H t1 h1, runLoop_route stdParse l2 H2 t2 h2]
      constructor
      · rintro ⟨x, hx, hrest⟩
        exact ⟨x, hperm.mem_iff.mp hx, hrest⟩
      · rintro ⟨x, hx, hrest⟩
        exact ⟨x, hperm.mem_iff.mpr hx, hrest⟩

/-- C10 at its failing input: the frontends `http://a/` and `http://a:80/` parse to the same
`URL`; visited in one order the loop ends with the backend `b2` stored for it, visited in
the other order with the backend `b1`, so the two runs do not end with the same group for
port 80. -/
theorem visiting_order_changes_routes :
    (Parse sampleParse "http://a/").1 = (Parse sampleParse "http://a:80/").1 ∧
    runLoop sampleParse [("http://a/", "http://b1/"), ("http://a:80/", "http://b2/")]
        Tables.empty
      = some ⟨[("80", "http")],
          [("80", [(⟨"http", "a", "80", "/"⟩, ⟨"http", "b2", "80", "/"⟩)])]⟩ ∧
    runLoop sampleParse [("http://a:80/", "http://b2/"), ("http://a/", "http://b1/")]
        Tables.empty
      = some ⟨[("80", "http")],
          [("80", [(⟨"http", "a", "80", "/"⟩, ⟨"http", "b1", "80", "/"⟩)])]⟩ ∧
    runLoop sampleParse [("http://a/", "http://b1/"), ("http://a:80/", "http://b2/")]
        Tables.empty
      ≠ runLoop sampleParse [("http://a:80/", "http://b2/"), ("http://a/", "http://b1/")]
        Tables.empty := by
  decide

end Inspector
